import Mathlib

/-!
Verification of the sequence vectorization and windowing pipeline of the
headline-generation repository, a shallow embedding of
`headline_generation/utils/preprocessing.py`.

Token ids are natural numbers; Python lists become `List Nat`; the
word-to-index dictionary becomes a partial map `String → Option Nat`;
Python floor division `//` on possibly negative operands becomes
`Int.fdiv`; `range(0, stop, step)` (with positive `step`) becomes
`pyRange stop step`; the two run-time errors the code can hit in
`format_inputs` (a `ZeroDivisionError` when `step = 0` and at least one
pair is present, and an `IndexError` when a target id is at least
`vocab_size` during the one-hot write) are modelled by an `Option`
result, `none` standing for the raised exception.
-/

namespace HeadlineGen

/-- Embedding of the helper `_vec_txt(words, word_idx_dct)`: keep, in
order, the index of every word present in the mapping and silently skip
the rest. -/
def vec_txt (words : List String) (word_idx_dct : String → Option Nat) : List Nat :=
  words.filterMap word_idx_dct

/-- Embedding of `vectorize_texts(bodies, headlines, word_idx_dct)`: walk
the zipped pairs, vectorize both sides, and append both results exactly
when both are non-empty (Python truthiness of a list). -/
def vectorize_texts (bodies headlines : List (List String))
    (word_idx_dct : String → Option Nat) :
    List (List Nat) × List (List Nat) :=
  (bodies.zip headlines).foldl
    (fun acc p =>
      let vec_body := vec_txt p.1 word_idx_dct
      let vec_headline := vec_txt p.2 word_idx_dct
      if vec_body ≠ [] ∧ vec_headline ≠ [] then
        (acc.1 ++ [vec_body], acc.2 ++ [vec_headline])
      else acc)
    ([], [])

/-- The eligibility test of `format_inputs` (lines 128-131):
`len_hline <= (len_body - maxlen) // step` with Python floor division. -/
def retained (maxlen step len_body len_hline : Nat) : Bool :=
  decide ((len_hline : Int) ≤ ((len_body : Int) - (maxlen : Int)).fdiv (step : Int))

/-- Embedding of the first loop of `format_inputs` (lines 126-134): for
every zipped pair passing the eligibility test, record
`clipped_body = body[:maxlen + len_hline]` extended by the headline,
together with the headline length. -/
def master_arr (bodies_arr headlines_arr : List (List Nat)) (maxlen step : Nat) :
    List (List Nat × Nat) :=
  (bodies_arr.zip headlines_arr).filterMap fun p =>
    if retained maxlen step p.1.length p.2.length then
      some (p.1.take (maxlen + p.2.length) ++ p.2, p.2.length)
    else none

/-- `range(0, stop, step)` for a positive `step`: the multiples of `step`
below `stop`, in increasing order. -/
def pyRange (stop step : Nat) : List Nat :=
  (List.range ((stop + step - 1) / step)).map (fun k => k * step)

/-- Embedding of the body of the second loop of `format_inputs` (lines
137-148) for one entry of `master_arr`: for each `idx` in
`range(0, len_hline, step)` emit the window slice
`body_n_hline[idx : idx + maxlen]` and the target slice
`body_n_hline[idx + maxlen + len_hline : idx + maxlen + len_hline + 1]`. -/
def window_rows (maxlen step : Nat) (body_n_hline : List Nat) (len_hline : Nat) :
    List (List Nat × List Nat) :=
  (pyRange len_hline step).map fun idx =>
    ((body_n_hline.drop idx).take maxlen,
     (body_n_hline.drop (idx + maxlen + len_hline)).take 1)

/-- All (window, target-slice) rows accumulated across `master_arr`,
preserving pair order and increasing-offset order within a pair. -/
def all_rows (bodies_arr headlines_arr : List (List Nat)) (maxlen step : Nat) :
    List (List Nat × List Nat) :=
  (master_arr bodies_arr headlines_arr maxlen step).flatMap fun m =>
    window_rows maxlen step m.1 m.2

/-- Embedding of the one-hot write `y_s[idx, y] = 1` (line 154) for one
row: start from a zero row of width `vocab_size` and set index `t` to `1`
for every `t` in the fancy-index array `y`. -/
def one_hot (vocab_size : Nat) (ys_row : List Nat) : List Nat :=
  ys_row.foldl (fun row t => row.set t 1) (List.replicate vocab_size 0)

/-- Embedding of `format_inputs(bodies_arr, headlines_arr, vocab_size,
maxlen, step)`.  The result is `none` when the Python code raises: a
`ZeroDivisionError` if `step = 0` while at least one zipped pair exists
(the division on line 129 runs on the first iteration), or an
`IndexError` if some target id reaches `vocab_size` in the one-hot write
on line 154.  Otherwise it returns the window matrix `X_s` and the
one-hot target matrix `y_s`. -/
def format_inputs (bodies_arr headlines_arr : List (List Nat))
    (vocab_size maxlen step : Nat) :
    Option (List (List Nat) × List (List Nat)) :=
  if step = 0 ∧ bodies_arr.zip headlines_arr ≠ [] then none
  else if ((all_rows bodies_arr headlines_arr maxlen step).map Prod.snd).any
      (fun y => y.any (fun t => vocab_size ≤ t)) then none
  else some ((all_rows bodies_arr headlines_arr maxlen step).map Prod.fst,
             ((all_rows bodies_arr headlines_arr maxlen step).map Prod.snd).map
               (one_hot vocab_size))

/-! ### Helper lemmas -/

/-- Every offset produced by `pyRange stop step` (with positive `step`)
is below `stop`. -/
theorem mem_pyRange_lt {stop step idx : Nat} (hs : 1 ≤ step)
    (h : idx ∈ pyRange stop step) : idx < stop := by
  rcases List.mem_map.mp h with ⟨k, hk, rfl⟩
  rw [List.mem_range] at hk
  have h2 : (k + 1) * step ≤ stop + step - 1 :=
    (Nat.le_div_iff_mul_le (by omega)).mp hk
  rw [Nat.succ_mul] at h2
  generalize k * step = K at h2 ⊢
  omega

/-- The eligibility test, rephrased over natural numbers for a positive
`step`. -/
theorem retained_iff {maxlen step len_b len_h : Nat} (hs : 1 ≤ step) :
    retained maxlen step len_b len_h = true ↔
      maxlen ≤ len_b ∧ len_h ≤ (len_b - maxlen) / step := by
  have hstep : (0 : Int) < (step : Int) := by exact_mod_cast hs
  rw [retained, decide_eq_true_iff, Int.fdiv_eq_ediv _ (Int.le_of_lt hstep)]
  constructor
  · intro h
    have hle : (maxlen : Int) ≤ (len_b : Int) := by
      by_contra hlt
      push_neg at hlt
      have hneg : ((len_b : Int) - (maxlen : Int)) / (step : Int) < 0 :=
        Int.ediv_neg' (by omega) hstep
      have : (0 : Int) ≤ (len_h : Int) := Int.natCast_nonneg _
      omega
    have hcast : ((len_b : Int) - (maxlen : Int)) = ((len_b - maxlen : Nat) : Int) := by
      omega
    rw [hcast, ← Int.ofNat_ediv] at h
    exact ⟨by exact_mod_cast hle, by exact_mod_cast h⟩
  · intro ⟨h1, h2⟩
    have hcast : ((len_b : Int) - (maxlen : Int)) = ((len_b - maxlen : Nat) : Int) := by
      omega
    rw [hcast, ← Int.ofNat_ediv]
    exact_mod_cast h2

/-- A retained pair has a body at least `maxlen + step * len_h` long. -/
theorem retained_le {maxlen step len_b len_h : Nat} (hs : 1 ≤ step)
    (h : retained maxlen step len_b len_h = true) :
    maxlen + step * len_h ≤ len_b := by
  obtain ⟨h1, h2⟩ := (retained_iff hs).mp h
  have h3 : len_h * step ≤ len_b - maxlen :=
    (Nat.le_div_iff_mul_le (by omega)).mp h2
  rw [Nat.mul_comm] at h3
  generalize step * len_h = K at h3 ⊢
  omega

/-- Unfolding membership in `master_arr`: every entry is the clipped
concatenation of a retained zipped pair, tagged by its headline length. -/
theorem mem_master_arr {bodies headlines : List (List Nat)} {maxlen step : Nat}
    {m : List Nat × Nat} (h : m ∈ master_arr bodies headlines maxlen step) :
    ∃ b hl, (b, hl) ∈ bodies.zip headlines ∧
      retained maxlen step b.length hl.length = true ∧
      m = (b.take (maxlen + hl.length) ++ hl, hl.length) := by
  rcases List.mem_filterMap.mp h with ⟨p, hp, hsome⟩
  by_cases hr : retained maxlen step p.1.length p.2.length
  · rw [if_pos hr] at hsome
    exact ⟨p.1, p.2, hp, hr, (Option.some_inj.mp hsome).symm⟩
  · rw [if_neg hr] at hsome
    exact absurd hsome (by simp)

/-- Conversely, every retained zipped pair contributes its clipped
concatenation to `master_arr`. -/
theorem master_arr_intro {bodies headlines : List (List Nat)} {maxlen step : Nat}
    {b hl : List Nat} (hp : (b, hl) ∈ bodies.zip headlines)
    (hr : retained maxlen step b.length hl.length = true) :
    (b.take (maxlen + hl.length) ++ hl, hl.length)
      ∈ master_arr bodies headlines maxlen step := by
  exact List.mem_filterMap.mpr ⟨(b, hl), hp, by rw [if_pos hr]⟩

/-- Central elimination lemma: every row of `all_rows` (for a positive
`step`) comes from a retained zipped pair and an offset `idx` below the
headline length; its window is the `maxlen`-wide slice of the clipped
concatenation at `idx`, and its target slice is the singleton holding
the headline token at position `idx`, which sits at the in-bounds
position `idx + maxlen + len_h` of the concatenation. -/
theorem mem_all_rows_elim {bodies headlines : List (List Nat)} {maxlen step : Nat}
    (hs : 1 ≤ step) {w t : List Nat}
    (hmem : (w, t) ∈ all_rows bodies headlines maxlen step) :
    ∃ b hl idx, (b, hl) ∈ bodies.zip headlines ∧
      retained maxlen step b.length hl.length = true ∧
      idx ∈ pyRange hl.length step ∧ idx < hl.length ∧
      maxlen + step * hl.length ≤ b.length ∧
      w = ((b.take (maxlen + hl.length) ++ hl).drop idx).take maxlen ∧
      t = ((b.take (maxlen + hl.length) ++ hl).drop (idx + maxlen + hl.length)).take 1 ∧
      t = [hl.getD idx 0] ∧
      w.length = maxlen ∧
      idx + maxlen + hl.length < (b.take (maxlen + hl.length) ++ hl).length := by
  rcases List.mem_flatMap.mp hmem with ⟨m, hm, hrow⟩
  rcases mem_master_arr hm with ⟨b, hl, hp, hr, rfl⟩
  rcases List.mem_map.mp hrow with ⟨idx, hidx, heq⟩
  rw [Prod.mk.injEq] at heq
  obtain ⟨hw, ht⟩ := heq
  have hlt : idx < hl.length := mem_pyRange_lt hs hidx
  have hble : maxlen + step * hl.length ≤ b.length := retained_le hs hr
  have hlh : hl.length ≤ step * hl.length := Nat.le_mul_of_pos_left _ (by omega)
  have hblen : maxlen + hl.length ≤ b.length := by
    generalize step * hl.length = K at hble hlh
    omega
  have htake : (b.take (maxlen + hl.length)).length = maxlen + hl.length := by
    rw [List.length_take]
    omega
  have hseqlen : (b.take (maxlen + hl.length) ++ hl).length
      = maxlen + hl.length + hl.length := by
    rw [List.length_append, htake]
  have hdropt : (b.take (maxlen + hl.length) ++ hl).drop (idx + maxlen + hl.length)
      = hl.drop idx := by
    have harith : idx + maxlen + hl.length = maxlen + hl.length + idx := by omega
    rw [harith, ← List.drop_drop, List.drop_left' htake]
  have hgetD : hl.getD idx 0 = hl[idx] := by
    rw [List.getD_eq_getElem?_getD, List.getElem?_eq_getElem hlt]
    rfl
  have htar : ((b.take (maxlen + hl.length) ++ hl).drop (idx + maxlen + hl.length)).take 1
      = [hl.getD idx 0] := by
    rw [hdropt, List.drop_eq_getElem_cons hlt, hgetD]
    rfl
  refine ⟨b, hl, idx, hp, hr, hidx, hlt, hble, hw.symm, ht.symm, ?_, ?_, ?_⟩
  · rw [← ht, htar]
  · rw [← hw, List.length_take, List.length_drop, hseqlen]
    omega
  · rw [hseqlen]
    omega

/-- Conversely, every offset of `range(0, len_h, step)` of every retained
zipped pair yields its (window, target-slice) row in `all_rows`. -/
theorem all_rows_intro {bodies headlines : List (List Nat)} {maxlen step : Nat}
    {b hl : List Nat} (hp : (b, hl) ∈ bodies.zip headlines)
    (hr : retained maxlen step b.length hl.length = true)
    {idx : Nat} (hidx : idx ∈ pyRange hl.length step) :
    (((b.take (maxlen + hl.length) ++ hl).drop idx).take maxlen,
     ((b.take (maxlen + hl.length) ++ hl).drop (idx + maxlen + hl.length)).take 1)
      ∈ all_rows bodies headlines maxlen step :=
  List.mem_flatMap.mpr ⟨_, master_arr_intro hp hr, List.mem_map.mpr ⟨idx, hidx, rfl⟩⟩

/-- Setting index `t < V` of a zero row of width `V` to `1` yields a row
of zeros with a single `1` at position `t`. -/
theorem set_replicate_eq : ∀ (t V : Nat), t < V →
    (List.replicate V (0 : Nat)).set t 1
      = List.replicate t 0 ++ 1 :: List.replicate (V - t - 1) 0 := by
  intro t
  induction t with
  | zero =>
    intro V hV
    cases V with
    | zero => omega
    | succ v => simp [List.replicate_succ]
  | succ t ih =>
    intro V hV
    cases V with
    | zero => omega
    | succ v =>
      rw [List.replicate_succ, List.set_cons_succ, ih v (by omega),
        List.replicate_succ (n := t)]
      simp [Nat.succ_sub_succ]

/-- The one-hot encoding of a singleton target slice, in split form. -/
theorem one_hot_singleton (V t : Nat) (ht : t < V) :
    one_hot V [t] = List.replicate t 0 ++ 1 :: List.replicate (V - t - 1) 0 := by
  rw [one_hot]
  simp only [List.foldl_cons, List.foldl_nil]
  exact set_replicate_eq t V ht

/-- The one-hot row of a singleton target `t < V` has width `V`, holds
`1` exactly at column `t`, `0` at every other column, and contains
exactly one `1`. -/
theorem one_hot_props (V t : Nat) (ht : t < V) :
    (one_hot V [t]).length = V ∧
    (one_hot V [t])[t]? = some 1 ∧
    (∀ j, j < V → j ≠ t → (one_hot V [t])[j]? = some 0) ∧
    (one_hot V [t]).count 1 = 1 := by
  rw [one_hot_singleton V t ht]
  refine ⟨?_, ?_, ?_, ?_⟩
  · simp
    omega
  · rw [List.getElem?_append_right (by simp)]
    simp
  · intro j hjV hjt
    rcases Nat.lt_or_ge j t with hlt | hge
    · rw [List.getElem?_append_left (by simpa using hlt)]
      simp [List.getElem?_replicate, hlt]
    · have hgt : t < j := by omega
      rw [List.getElem?_append_right (by simpa using hge)]
      have hidx : j - List.length (List.replicate t (0 : Nat)) = (j - t - 1) + 1 := by
        simp
        omega
      rw [hidx, List.getElem?_cons_succ]
      simp [List.getElem?_replicate]
      omega
  · simp [List.count_cons, List.count_replicate]

/-- Unfolding a successful run of `format_inputs`: the matrices are the
two parallel projections of `all_rows`, every emitted target id is below
`vocab_size`, and whenever a row exists the step is positive (otherwise
the `step = 0` branch would have raised). -/
theorem format_inputs_eq_some {bodies headlines : List (List Nat)}
    {V maxlen step : Nat} {X Y : List (List Nat)}
    (h : format_inputs bodies headlines V maxlen step = some (X, Y)) :
    X = (all_rows bodies headlines maxlen step).map Prod.fst ∧
    Y = ((all_rows bodies headlines maxlen step).map Prod.snd).map (one_hot V) ∧
    (∀ r ∈ all_rows bodies headlines maxlen step, ∀ u ∈ r.2, u < V) ∧
    (all_rows bodies headlines maxlen step ≠ [] → 1 ≤ step) := by
  rw [format_inputs] at h
  split_ifs at h with h1 h2
  rw [Option.some_inj, Prod.mk.injEq] at h
  obtain ⟨hX, hY⟩ := h
  refine ⟨hX.symm, hY.symm, ?_, ?_⟩
  · intro r hr u hu
    by_contra hge
    push_neg at hge
    apply h2
    rw [List.any_eq_true]
    refine ⟨r.2, List.mem_map_of_mem _ hr, ?_⟩
    rw [List.any_eq_true]
    exact ⟨u, hu, decide_eq_true hge⟩
  · intro hne
    rcases Nat.eq_zero_or_pos step with h0 | hpos
    · exfalso
      apply h1
      refine ⟨h0, fun hz => hne ?_⟩
      simp [all_rows, master_arr, hz]
    · exact hpos

/-! ### Claim theorems -/

/-- C1 counterexample: at bodies `[[0,1,2,3]]`, headlines `[[4]]`,
`maxlen = 2`, `step = 1`, the Window Builder emits exactly one row, whose
window is `[0,1]` and whose target slice is `[4]`; but the token
immediately following that window in the concatenated sequence
`seq = [0,1,2,4]` is `seq[0 + 2] = 2`, so the emitted target is not
`seq[idx + maxlen]` as the claim states. -/
theorem c1_counterexample :
    all_rows [[0, 1, 2, 3]] [[4]] 2 1 = [([0, 1], [4])] ∧
    ((([0, 1, 2, 3] : List Nat).take (2 + 1) ++ [4]).drop (0 + 2)).take 1 = [2] ∧
    ([4] : List Nat) ≠ [2] := by decide

/-- C1 (amended): for every call with positive `step`, every emitted row
comes from a retained pair `(b, hl)` and an emitted offset `idx`; its
window equals `seq[idx : idx + maxlen]`, while its target is
`seq[idx + maxlen + len_h]` — the headline token at position `idx` — and
not the token immediately following the window; conversely every offset
of every retained pair emits such a row. -/
theorem c1_window_target (bodies headlines : List (List Nat)) (maxlen step : Nat)
    (hs : 1 ≤ step) :
    (∀ w t, (w, t) ∈ all_rows bodies headlines maxlen step →
      ∃ b hl idx, (b, hl) ∈ bodies.zip headlines ∧
        retained maxlen step b.length hl.length = true ∧
        idx ∈ pyRange hl.length step ∧
        w = ((b.take (maxlen + hl.length) ++ hl).drop idx).take maxlen ∧
        t = ((b.take (maxlen + hl.length) ++ hl).drop (idx + maxlen + hl.length)).take 1 ∧
        t = [hl.getD idx 0]) ∧
    (∀ b hl, (b, hl) ∈ bodies.zip headlines →
      retained maxlen step b.length hl.length = true →
      ∀ idx ∈ pyRange hl.length step,
        (((b.take (maxlen + hl.length) ++ hl).drop idx).take maxlen,
         ((b.take (maxlen + hl.length) ++ hl).drop (idx + maxlen + hl.length)).take 1)
          ∈ all_rows bodies headlines maxlen step) := by
  constructor
  · intro w t hmem
    obtain ⟨b, hl, idx, h1, h2, h3, _, _, h6, h7, h8, _, _⟩ := mem_all_rows_elim hs hmem
    exact ⟨b, hl, idx, h1, h2, h3, h6, h7, h8⟩
  · intro b hl hp hr idx hidx
    exact all_rows_intro hp hr hidx

/-- Witness for C1: instantiating the amended theorem at the concrete
call shows the row `([0,1], [4])` is emitted. -/
theorem c1_window_target_witness :
    (([0, 1], [4]) : List Nat × List Nat) ∈ all_rows [[0, 1, 2, 3]] [[4]] 2 1 := by
  have h := (c1_window_target [[0, 1, 2, 3]] [[4]] 2 1 (by decide)).2
      [0, 1, 2, 3] [4] (by decide) (by decide) 0 (by decide)
  have he : (((([0, 1, 2, 3] : List Nat).take (2 + ([4] : List Nat).length) ++ [4]).drop 0).take 2,
      ((([0, 1, 2, 3] : List Nat).take (2 + ([4] : List Nat).length) ++ [4]).drop
        (0 + 2 + ([4] : List Nat).length)).take 1)
      = (([0, 1], [4]) : List Nat × List Nat) := by decide
  exact he ▸ h

/-- C2 counterexample: for the retained pair body `[0,1,2,3]`, headline
`[4]` with `maxlen = 2`, `step = 1`, the concatenated sequence stored in
`master_arr` is `[0,1,2,4]` of length 4, while the claimed form
`b[0 : maxlen + len_h] ++ [marker] ++ h` would have length
`maxlen + len_h + 1 + len_h = 5`: no boundary-marker token is inserted. -/
theorem c2_counterexample :
    master_arr [[0, 1, 2, 3]] [[4]] 2 1 = [([0, 1, 2, 4], 1)] ∧
    ([0, 1, 2, 4] : List Nat).length ≠ 2 + 1 + 1 + 1 := by decide

/-- C2 (amended): for every retained pair the sequence the windows slide
over is the clipped body prefix `b[0 : maxlen + len_h]` followed directly
by the full headline `h`; no marker token is inserted between them. -/
theorem c2_clipped_concat (bodies headlines : List (List Nat)) (maxlen step : Nat) :
    ∀ s l, (s, l) ∈ master_arr bodies headlines maxlen step →
      ∃ b hl, (b, hl) ∈ bodies.zip headlines ∧
        retained maxlen step b.length hl.length = true ∧
        s = b.take (maxlen + hl.length) ++ hl ∧ l = hl.length := by
  intro s l h
  obtain ⟨b, hl, hp, hr, heq⟩ := mem_master_arr h
  rw [Prod.mk.injEq] at heq
  exact ⟨b, hl, hp, hr, heq.1, heq.2⟩

/-- Witness for C2 (amended), at the concrete retained pair. -/
theorem c2_clipped_concat_witness :
    (([0, 1, 2, 4], 1) : List Nat × Nat) ∈ master_arr [[0, 1, 2, 3]] [[4]] 2 1 ∧
    ∃ b hl, (b, hl) ∈ ([[0, 1, 2, 3]] : List (List Nat)).zip [[4]] ∧
      retained 2 1 b.length hl.length = true ∧
      ([0, 1, 2, 4] : List Nat) = b.take (2 + hl.length) ++ hl ∧ 1 = hl.length :=
  ⟨by decide, c2_clipped_concat [[0, 1, 2, 3]] [[4]] 2 1 [0, 1, 2, 4] 1 (by decide)⟩

/-- C3 (code bug): on the id-level fixture of the repository test
`test_format_inputs` (bodies of lengths 4 and 6, headlines of lengths 1
and 2, `maxlen = 2`, `step = 1`, both pairs retained) the code emits
`len(range(0, len_h, step))` rows per retained pair, 1 + 2 = 3 in total,
whereas the claimed law `len(range(0, len_h + 1, step))` gives
2 + 3 = 5 — which is exactly what the test asserts as `X.shape[0]`. -/
theorem c3_row_count :
    (all_rows [[0, 1, 2, 3], [4, 5, 1, 6, 7, 8]] [[1], [6, 9]] 2 1).length = 3 ∧
    (pyRange 1 1).length + (pyRange 2 1).length = 3 ∧
    (pyRange (1 + 1) 1).length + (pyRange (2 + 1) 1).length = 5 := by decide

/-- C4: a pair is retained iff `len_h <= (len_b - maxlen) // step` under
Python floor division; when `len_b < maxlen` the quotient is negative
and the pair is rejected; a rejected pair contributes nothing to
`master_arr` and no rows to the output, while a retained pair
contributes exactly its clipped concatenation. -/
theorem c4_eligibility (bodies headlines : List (List Nat)) (b hl : List Nat)
    (maxlen step : Nat) (_hm : 1 ≤ maxlen) (hs : 1 ≤ step) :
    (retained maxlen step b.length hl.length = true ↔
       (hl.length : Int) ≤ ((b.length : Int) - (maxlen : Int)).fdiv (step : Int)) ∧
    (b.length < maxlen →
       ((b.length : Int) - (maxlen : Int)).fdiv (step : Int) < 0 ∧
       retained maxlen step b.length hl.length = false) ∧
    (retained maxlen step b.length hl.length = false →
       master_arr (b :: bodies) (hl :: headlines) maxlen step
         = master_arr bodies headlines maxlen step ∧
       all_rows (b :: bodies) (hl :: headlines) maxlen step
         = all_rows bodies headlines maxlen step) ∧
    (retained maxlen step b.length hl.length = true →
       master_arr (b :: bodies) (hl :: headlines) maxlen step
         = (b.take (maxlen + hl.length) ++ hl, hl.length)
             :: master_arr bodies headlines maxlen step) := by
  have hstep : (0 : Int) < (step : Int) := by exact_mod_cast hs
  refine ⟨by rw [retained, decide_eq_true_iff], ?_, ?_, ?_⟩
  · intro hlt
    have hneg : ((b.length : Int) - (maxlen : Int)).fdiv (step : Int) < 0 := by
      rw [Int.fdiv_eq_ediv _ (Int.le_of_lt hstep)]
      exact Int.ediv_neg' (by omega) hstep
    refine ⟨hneg, ?_⟩
    rw [retained, decide_eq_false_iff_not]
    intro hcon
    have h0 : (0 : Int) ≤ (hl.length : Int) := Int.natCast_nonneg _
    omega
  · intro hf
    have hmaster : master_arr (b :: bodies) (hl :: headlines) maxlen step
        = master_arr bodies headlines maxlen step := by
      simp [master_arr, List.zip_cons_cons, List.filterMap_cons, hf]
    exact ⟨hmaster, by rw [all_rows, all_rows, hmaster]⟩
  · intro htr
    simp [master_arr, List.zip_cons_cons, List.filterMap_cons, htr]

/-- Witness for C4: a too-short second body is rejected and contributes
nothing, while the retained first pair contributes its clipped
concatenation. -/
theorem c4_eligibility_witness :
    master_arr [[0, 1, 2, 3], [9]] [[4], [7]] 2 1 = [([0, 1, 2, 4], 1)] := by
  have h := (c4_eligibility [[9]] [[7]] [0, 1, 2, 3] [4] 2 1 (by decide) (by decide)).2.2.2
      (by decide)
  rw [h]
  decide

/-- C5 (code bug): evaluated at the id-level fixture of the repository
test `test_format_inputs`, the code returns exactly the pair of the
window matrix `X` and the one-hot matrix `Y` and nothing else — no
`filtered_bodies` or `filtered_headlines` components — while the test
unpacks four return values from the call. -/
theorem c5_two_return_values :
    format_inputs [[0, 1, 2, 3], [4, 5, 1, 6, 7, 8]] [[1], [6, 9]] 11 2 1
      = some ([[0, 1], [4, 5], [5, 1]],
              [[0, 1, 0, 0, 0, 0, 0, 0, 0, 0, 0],
               [0, 0, 0, 0, 0, 0, 1, 0, 0, 0, 0],
               [0, 0, 0, 0, 0, 0, 0, 0, 0, 1, 0]]) := by decide

/-- C6: whenever `format_inputs` returns (so in particular every emitted
target id is below `vocab_size`, else the one-hot write raises), the two
matrices have identical row counts and every row of `Y` is the one-hot
row of the corresponding emitted target: width `vocab_size`, a single
entry `1` located at the target column, `0` everywhere else. -/
theorem c6_one_hot_invariant (bodies headlines : List (List Nat))
    (V maxlen step : Nat) (X Y : List (List Nat))
    (h : format_inputs bodies headlines V maxlen step = some (X, Y)) :
    X.length = Y.length ∧
    ∀ (i : Nat) (row : List Nat), Y[i]? = some row →
      ∃ (w : List Nat) (t : Nat), (all_rows bodies headlines maxlen step)[i]? = some (w, [t]) ∧
        t < V ∧ row = one_hot V [t] ∧ row.length = V ∧
        row[t]? = some 1 ∧ (∀ j, j < V → j ≠ t → row[j]? = some 0) ∧
        row.count 1 = 1 := by
  obtain ⟨hX, hY, hbound, hstep⟩ := format_inputs_eq_some h
  subst hX hY
  refine ⟨by simp, ?_⟩
  intro i row hrow
  rcases hR : (all_rows bodies headlines maxlen step)[i]? with _ | r
  · rw [List.getElem?_map, List.getElem?_map, hR] at hrow
    simp at hrow
  · obtain ⟨w, ts⟩ := r
    rw [List.getElem?_map, List.getElem?_map, hR] at hrow
    simp only [Option.map_some'] at hrow
    have hrmem : (w, ts) ∈ all_rows bodies headlines maxlen step := List.getElem?_mem hR
    have hs1 : 1 ≤ step := by
      apply hstep
      intro hnil
      rw [hnil] at hR
      simp at hR
    obtain ⟨b, hl, idx, _, _, _, _, _, _, _, hsingle, _, _⟩ := mem_all_rows_elim hs1 hrmem
    have htV : hl.getD idx 0 < V := by
      refine hbound (w, ts) hrmem (hl.getD idx 0) ?_
      rw [hsingle]
      exact List.mem_singleton_self _
    have hrow2 : row = one_hot V [hl.getD idx 0] := by
      have h9 : one_hot V ts = row := Option.some_inj.mp hrow
      rw [← h9, hsingle]
    obtain ⟨hlen, hat, hoff, hcnt⟩ := one_hot_props V (hl.getD idx 0) htV
    refine ⟨w, hl.getD idx 0, ?_, htV, hrow2, ?_, ?_, ?_, ?_⟩
    · rw [hsingle]
    · rw [hrow2]
      exact hlen
    · rw [hrow2]
      exact hat
    · rw [hrow2]
      exact hoff
    · rw [hrow2]
      exact hcnt

/-- Witness for C6, at a concrete successful call with one emitted row
whose target id is `1`. -/
theorem c6_one_hot_invariant_witness :
    format_inputs [[0, 1, 2, 3]] [[1]] 5 2 1 = some ([[0, 1]], [[0, 1, 0, 0, 0]]) ∧
    (([[0, 1]] : List (List Nat)).length = ([[0, 1, 0, 0, 0]] : List (List Nat)).length ∧
     ∀ (i : Nat) (row : List Nat), ([[0, 1, 0, 0, 0]] : List (List Nat))[i]? = some row →
       ∃ (w : List Nat) (t : Nat), (all_rows [[0, 1, 2, 3]] [[1]] 2 1)[i]? = some (w, [t]) ∧
         t < 5 ∧ row = one_hot 5 [t] ∧ row.length = 5 ∧
         row[t]? = some 1 ∧ (∀ j, j < 5 → j ≠ t → row[j]? = some 0) ∧
         row.count 1 = 1) :=
  ⟨by decide, c6_one_hot_invariant [[0, 1, 2, 3]] [[1]] 5 2 1 [[0, 1]] [[0, 1, 0, 0, 0]]
    (by decide)⟩

/-- The accumulating loop of `vectorize_texts`, characterised as a
filter followed by two projections. -/
theorem vectorize_foldl_eq (d : String → Option Nat) :
    ∀ (l : List (List String × List String)) (acc : List (List Nat) × List (List Nat)),
      (l.foldl (fun acc p =>
          if vec_txt p.1 d ≠ [] ∧ vec_txt p.2 d ≠ [] then
            (acc.1 ++ [vec_txt p.1 d], acc.2 ++ [vec_txt p.2 d])
          else acc) acc)
        = (acc.1 ++ ((l.filter fun p =>
              decide (vec_txt p.1 d ≠ [] ∧ vec_txt p.2 d ≠ [])).map fun p => vec_txt p.1 d),
           acc.2 ++ ((l.filter fun p =>
              decide (vec_txt p.1 d ≠ [] ∧ vec_txt p.2 d ≠ [])).map fun p => vec_txt p.2 d)) := by
  intro l
  induction l with
  | nil =>
    intro acc
    simp
  | cons p l ih =>
    intro acc
    rw [List.foldl_cons]
    by_cases hp : vec_txt p.1 d ≠ [] ∧ vec_txt p.2 d ≠ []
    · have hd : (decide (vec_txt p.1 d ≠ [] ∧ vec_txt p.2 d ≠ [])) = true :=
        decide_eq_true hp
      rw [if_pos hp, ih]
      simp only [List.filter_cons, hd, if_pos hp, List.map_cons, List.append_assoc,
        List.singleton_append, Prod.mk.injEq]
      first
      | rfl
      | exact ⟨rfl, rfl⟩
    · have hd : (decide (vec_txt p.1 d ≠ [] ∧ vec_txt p.2 d ≠ [])) = false := by
        simpa using hp
      rw [if_neg hp, ih]
      simp only [List.filter_cons, hd, if_neg hp]
      rfl

/-- C7: `vectorize_texts` keeps exactly the zipped pairs whose two
vectorizations are both non-empty, in input order; dropped pairs are
absent from both outputs, the outputs have equal length never exceeding
the input lengths, and an all-dropped input yields two empty outputs. -/
theorem c7_vectorize_pairs (bodies headlines : List (List String))
    (d : String → Option Nat) (hlen : bodies.length = headlines.length) :
    (vectorize_texts bodies headlines d).1
      = (((bodies.zip headlines).filter fun p =>
          decide (vec_txt p.1 d ≠ [] ∧ vec_txt p.2 d ≠ [])).map fun p => vec_txt p.1 d) ∧
    (vectorize_texts bodies headlines d).2
      = (((bodies.zip headlines).filter fun p =>
          decide (vec_txt p.1 d ≠ [] ∧ vec_txt p.2 d ≠ [])).map fun p => vec_txt p.2 d) ∧
    (vectorize_texts bodies headlines d).1.length
      = (vectorize_texts bodies headlines d).2.length ∧
    (vectorize_texts bodies headlines d).1.length ≤ bodies.length ∧
    (vectorize_texts bodies headlines d).2.length ≤ headlines.length ∧
    ((∀ p ∈ bodies.zip headlines, vec_txt p.1 d = [] ∨ vec_txt p.2 d = []) →
      vectorize_texts bodies headlines d = ([], [])) := by
  have key : vectorize_texts bodies headlines d
      = ((((bodies.zip headlines).filter fun p =>
            decide (vec_txt p.1 d ≠ [] ∧ vec_txt p.2 d ≠ [])).map fun p => vec_txt p.1 d),
         (((bodies.zip headlines).filter fun p =>
            decide (vec_txt p.1 d ≠ [] ∧ vec_txt p.2 d ≠ [])).map fun p => vec_txt p.2 d)) := by
    rw [vectorize_texts]
    have h0 := vectorize_foldl_eq d (bodies.zip headlines) ([], [])
    simpa using h0
  rw [key]
  have hfil : (((bodies.zip headlines).filter fun p =>
      decide (vec_txt p.1 d ≠ [] ∧ vec_txt p.2 d ≠ []))).length
      ≤ (bodies.zip headlines).length := List.length_filter_le _ _
  have hziplen : (bodies.zip headlines).length = min bodies.length headlines.length :=
    List.length_zip ..
  refine ⟨rfl, rfl, by simp, ?_, ?_, ?_⟩
  · rw [List.length_map]
    omega
  · rw [List.length_map]
    omega
  · intro hall
    have hnil : ((bodies.zip headlines).filter fun p =>
        decide (vec_txt p.1 d ≠ [] ∧ vec_txt p.2 d ≠ [])) = [] := by
      rw [List.filter_eq_nil_iff]
      intro p hp
      rcases hall p hp with h1 | h1 <;> simp [h1]
    rw [hnil]
    rfl

/-- Witness for C7: the second pair vectorizes to an empty headline and
is dropped from both outputs; the first is kept. -/
theorem c7_vectorize_pairs_witness :
    (([["a"], ["x"]] : List (List String)).length
      = ([["b"], ["y"]] : List (List String)).length) ∧
    ((vectorize_texts [["a"], ["x"]] [["b"], ["y"]]
        (fun s => if s = "a" then some 0 else if s = "b" then some 1 else none)).1
      = ((([["a"], ["x"]].zip [["b"], ["y"]]).filter fun p =>
          decide (vec_txt p.1 (fun s => if s = "a" then some 0 else if s = "b" then some 1 else none) ≠ [] ∧
            vec_txt p.2 (fun s => if s = "a" then some 0 else if s = "b" then some 1 else none) ≠ [])).map
            fun p => vec_txt p.1 (fun s => if s = "a" then some 0 else if s = "b" then some 1 else none)) ∧
     (vectorize_texts [["a"], ["x"]] [["b"], ["y"]]
        (fun s => if s = "a" then some 0 else if s = "b" then some 1 else none)).2
      = ((([["a"], ["x"]].zip [["b"], ["y"]]).filter fun p =>
          decide (vec_txt p.1 (fun s => if s = "a" then some 0 else if s = "b" then some 1 else none) ≠ [] ∧
            vec_txt p.2 (fun s => if s = "a" then some 0 else if s = "b" then some 1 else none) ≠ [])).map
            fun p => vec_txt p.2 (fun s => if s = "a" then some 0 else if s = "b" then some 1 else none)) ∧
     (vectorize_texts [["a"], ["x"]] [["b"], ["y"]]
        (fun s => if s = "a" then some 0 else if s = "b" then some 1 else none)).1.length
      = (vectorize_texts [["a"], ["x"]] [["b"], ["y"]]
          (fun s => if s = "a" then some 0 else if s = "b" then some 1 else none)).2.length ∧
     (vectorize_texts [["a"], ["x"]] [["b"], ["y"]]
        (fun s => if s = "a" then some 0 else if s = "b" then some 1 else none)).1.length
      ≤ ([["a"], ["x"]] : List (List String)).length ∧
     (vectorize_texts [["a"], ["x"]] [["b"], ["y"]]
        (fun s => if s = "a" then some 0 else if s = "b" then some 1 else none)).2.length
      ≤ ([["b"], ["y"]] : List (List String)).length ∧
     ((∀ p ∈ ([["a"], ["x"]] : List (List String)).zip [["b"], ["y"]],
        vec_txt p.1 (fun s => if s = "a" then some 0 else if s = "b" then some 1 else none) = [] ∨
        vec_txt p.2 (fun s => if s = "a" then some 0 else if s = "b" then some 1 else none) = []) →
      vectorize_texts [["a"], ["x"]] [["b"], ["y"]]
        (fun s => if s = "a" then some 0 else if s = "b" then some 1 else none) = ([], []))) :=
  ⟨rfl, c7_vectorize_pairs [["a"], ["x"]] [["b"], ["y"]]
    (fun s => if s = "a" then some 0 else if s = "b" then some 1 else none) rfl⟩

/-- `zip` only consumes the common prefix: trailing unmatched entries of
either list are silently ignored. -/
theorem zip_eq_zip_take {α β : Type} :
    ∀ (as : List α) (bs : List β),
      as.zip bs = (as.take bs.length).zip (bs.take as.length) := by
  intro as
  induction as with
  | nil =>
    intro bs
    simp
  | cons a as ih =>
    intro bs
    cases bs with
    | nil => simp
    | cons b bs =>
      simp only [List.length_cons, List.take_succ_cons, List.zip_cons_cons]
      rw [ih bs]

/-- A headline token looked up at an in-range position is a member of
the headline. -/
theorem getD_mem_of_lt {l : List Nat} {idx : Nat} (h : idx < l.length) :
    l.getD idx 0 ∈ l := by
  rw [List.getD_eq_getElem?_getD, List.getElem?_eq_getElem h]
  simp only [Option.getD_some]
  exact List.getElem_mem h

/-- C8 counterexample: a call with mismatched input lengths (2 bodies,
1 headline) is not rejected: it silently ignores the unmatched body and
returns a full result; likewise a call with `maxlen = 0 < 1` returns a
normal result (with empty windows) instead of being rejected. -/
theorem c8_counterexample :
    format_inputs [[0, 1, 2], [5]] [[1]] 5 1 1 = some ([[0]], [[0, 1, 0, 0, 0]]) ∧
    ([[0, 1, 2], [5]] : List (List Nat)).length ≠ ([[1]] : List (List Nat)).length ∧
    format_inputs [[0, 1, 2]] [[1]] 5 0 1 = some ([[]], [[0, 1, 0, 0, 0]]) ∧
    (0 : Nat) < 1 := by decide

/-- C8 (amended): `format_inputs` performs no input validation.  For any
`step ≠ 0` with all headline tokens below `vocab_size` the call returns a
normal `some` result — including when `maxlen < 1` or when the two input
lists have different lengths — and mismatched inputs are silently
truncated to the zipped common prefix; the only failure for such calls
would be the `ZeroDivisionError` at `step = 0` with a pair present. -/
theorem c8_no_validation (bodies headlines : List (List Nat)) (V maxlen step : Nat)
    (hs : step ≠ 0)
    (htok : ∀ p ∈ bodies.zip headlines, ∀ u ∈ p.2, u < V) :
    (∃ X Y, format_inputs bodies headlines V maxlen step = some (X, Y)) ∧
    format_inputs bodies headlines V maxlen step
      = format_inputs (bodies.take headlines.length) (headlines.take bodies.length)
          V maxlen step := by
  have hs1 : 1 ≤ step := Nat.one_le_iff_ne_zero.mpr hs
  have hany : (((all_rows bodies headlines maxlen step).map Prod.snd).any
      (fun y => y.any (fun t => V ≤ t))) = false := by
    rw [List.any_eq_false]
    intro y hy
    rcases List.mem_map.mp hy with ⟨r, hr, rfl⟩
    obtain ⟨w2, ts⟩ := r
    obtain ⟨b, hl, idx, hp, _, _, hlt, _, _, _, hsingle, _, _⟩ :=
      mem_all_rows_elim hs1 hr
    have hmem2 : hl.getD idx 0 ∈ hl := getD_mem_of_lt hlt
    have hlt2 : hl.getD idx 0 < V := htok (b, hl) hp _ hmem2
    simp only [hsingle, List.any_cons, List.any_nil, Bool.or_false, decide_eq_true_eq]
    omega
  have hc1 : ¬ (step = 0 ∧ bodies.zip headlines ≠ []) := fun hc => hs hc.1
  have hmain : format_inputs bodies headlines V maxlen step
      = some ((all_rows bodies headlines maxlen step).map Prod.fst,
              ((all_rows bodies headlines maxlen step).map Prod.snd).map (one_hot V)) := by
    rw [format_inputs, if_neg hc1, if_neg (by simp [hany])]
  have hz : bodies.zip headlines
      = (bodies.take headlines.length).zip (headlines.take bodies.length) :=
    zip_eq_zip_take bodies headlines
  have hmaster : master_arr bodies headlines maxlen step
      = master_arr (bodies.take headlines.length) (headlines.take bodies.length)
          maxlen step := by
    rw [master_arr, master_arr, hz]
  have hrows : all_rows bodies headlines maxlen step
      = all_rows (bodies.take headlines.length) (headlines.take bodies.length)
          maxlen step := by
    rw [all_rows, all_rows, hmaster]
  refine ⟨⟨_, _, hmain⟩, ?_⟩
  rw [format_inputs, format_inputs, hz, hrows]

/-- Witness for C8 (amended), at mismatched concrete inputs. -/
theorem c8_no_validation_witness :
    ((1 : Nat) ≠ 0) ∧
    (∀ p ∈ ([[0, 1, 2], [5]] : List (List Nat)).zip [[1]], ∀ u ∈ p.2, u < 5) ∧
    ((∃ X Y, format_inputs [[0, 1, 2], [5]] [[1]] 5 1 1 = some (X, Y)) ∧
     format_inputs [[0, 1, 2], [5]] [[1]] 5 1 1
       = format_inputs (([[0, 1, 2], [5]] : List (List Nat)).take
             ([[1]] : List (List Nat)).length)
           (([[1]] : List (List Nat)).take ([[0, 1, 2], [5]] : List (List Nat)).length)
           5 1 1) :=
  ⟨by decide, by decide,
   c8_no_validation [[0, 1, 2], [5]] [[1]] 5 1 1 (by decide) (by decide)⟩

/-- C9: the eligibility test is monotone — decreasing `maxlen` or `step`
(each kept at least 1) preserves retention, so the retained set can only
grow. -/
theorem c9_monotonicity (len_b len_h maxlen step maxlen2 step2 : Nat)
    (_hm2 : 1 ≤ maxlen2) (hmle : maxlen2 ≤ maxlen)
    (hs2 : 1 ≤ step2) (hsle : step2 ≤ step)
    (hr : retained maxlen step len_b len_h = true) :
    retained maxlen2 step len_b len_h = true ∧
    retained maxlen step2 len_b len_h = true := by
  have hs1 : 1 ≤ step := le_trans hs2 hsle
  obtain ⟨hb, hdiv⟩ := (retained_iff hs1).mp hr
  constructor
  · rw [retained_iff hs1]
    exact ⟨le_trans hmle hb,
      le_trans hdiv (Nat.div_le_div_right (Nat.sub_le_sub_left hmle len_b))⟩
  · rw [retained_iff hs2]
    exact ⟨hb, le_trans hdiv (Nat.div_le_div_left hsle (by omega))⟩

/-- Witness for C9, at `len_b = 4`, `len_h = 1`, decreasing `maxlen` from
2 to 1 and `step` from 1 to 1. -/
theorem c9_monotonicity_witness :
    (1 : Nat) ≤ 1 ∧ (1 : Nat) ≤ 2 ∧ (1 : Nat) ≤ 1 ∧ (1 : Nat) ≤ 1 ∧
    retained 2 1 4 1 = true ∧
    (retained 1 1 4 1 = true ∧ retained 2 1 4 1 = true) :=
  ⟨by decide, by decide, by decide, by decide, by decide,
   c9_monotonicity 4 1 2 1 1 1 (by decide) (by decide) (by decide) (by decide) (by decide)⟩

/-- C10: under the stated preconditions, retention implies
`len_b >= maxlen + step * len_h`; every emitted window has exactly
`maxlen` elements and every target slice is a singleton taken at an
in-bounds index of the concatenated per-pair sequence. -/
theorem c10_safety (bodies headlines : List (List Nat)) (maxlen step : Nat)
    (_hm : 1 ≤ maxlen) (hs : 1 ≤ step)
    (_hne : ∀ p ∈ bodies.zip headlines, p.1 ≠ [] ∧ p.2 ≠ []) :
    (∀ b hl, (b, hl) ∈ bodies.zip headlines →
       retained maxlen step b.length hl.length = true →
       maxlen + step * hl.length ≤ b.length) ∧
    (∀ w t, (w, t) ∈ all_rows bodies headlines maxlen step →
       w.length = maxlen ∧ t.length = 1 ∧
       ∃ b hl idx, (b, hl) ∈ bodies.zip headlines ∧
         idx + maxlen + hl.length < (b.take (maxlen + hl.length) ++ hl).length ∧
         t = ((b.take (maxlen + hl.length) ++ hl).drop (idx + maxlen + hl.length)).take 1) := by
  refine ⟨?_, ?_⟩
  · intro b hl _ hr
    exact retained_le hs hr
  · intro w t hmem
    obtain ⟨b, hl, idx, hp, _, _, _, _, _, ht, hsingle, hwlen, hbound2⟩ :=
      mem_all_rows_elim hs hmem
    refine ⟨hwlen, ?_, b, hl, idx, hp, hbound2, ht⟩
    rw [hsingle]
    rfl

/-- Witness for C10, at the concrete retained pair. -/
theorem c10_safety_witness :
    (1 : Nat) ≤ 2 ∧ (1 : Nat) ≤ 1 ∧
    (∀ p ∈ ([[0, 1, 2, 3]] : List (List Nat)).zip [[4]], p.1 ≠ [] ∧ p.2 ≠ []) ∧
    ((∀ b hl, (b, hl) ∈ ([[0, 1, 2, 3]] : List (List Nat)).zip [[4]] →
       retained 2 1 b.length hl.length = true →
       2 + 1 * hl.length ≤ b.length) ∧
     (∀ w t, (w, t) ∈ all_rows [[0, 1, 2, 3]] [[4]] 2 1 →
       w.length = 2 ∧ t.length = 1 ∧
       ∃ b hl idx, (b, hl) ∈ ([[0, 1, 2, 3]] : List (List Nat)).zip [[4]] ∧
         idx + 2 + hl.length < (b.take (2 + hl.length) ++ hl).length ∧
         t = ((b.take (2 + hl.length) ++ hl).drop (idx + 2 + hl.length)).take 1)) :=
  ⟨by decide, by decide, by decide,
   c10_safety [[0, 1, 2, 3]] [[4]] 2 1 (by decide) (by decide) (by decide)⟩

-- Sanity checks against hand computation of the Python code.
example : vec_txt ["a", "zz", "b"]
    (fun s => if s = "a" then some 0 else if s = "b" then some 1 else none)
    = [0, 1] := by decide

example : format_inputs [[0, 1, 2, 3]] [[4]] 5 2 1
    = some ([[0, 1]], [[0, 0, 0, 0, 1]]) := by decide

example : format_inputs [[0, 1, 2, 3], [4, 5, 1, 6, 7, 8]] [[1], [6, 9]] 11 2 1
    = some ([[0, 1], [4, 5], [5, 1]],
            [[0, 1, 0, 0, 0, 0, 0, 0, 0, 0, 0],
             [0, 0, 0, 0, 0, 0, 1, 0, 0, 0, 0],
             [0, 0, 0, 0, 0, 0, 0, 0, 0, 1, 0]]) := by decide

example : format_inputs [[0, 1]] [[1]] 5 2 1 = some ([], []) := by decide

example : format_inputs [[0, 1, 2]] [[1]] 5 1 0 = none := by decide

end HeadlineGen
